import Mathlib

/-!
Shallow embedding of the framebuffer compositor and menu subsystem of the
`rustris` repository (files `src/renderer/mod.rs`, `src/renderer/text_boxes.rs`,
`src/menus/menu_data.rs`), together with theorems settling the frozen claims.

The pixel buffer is a `List Nat` of bytes (each byte a value `< 256` in the
source's `u8` type); machine-integer casts that can wrap (`as u8`) are made
explicit with `% 256`.  Fallible operations either return
`Except RenderError (List Nat)` (single-pixel writes, which perform no write on
the error path in the source) or a pair `List Nat × Option RenderError`
(loops that mutate the buffer in place and may stop mid-way with an error,
leaving the writes already performed).
-/

namespace Rustris

/-- Error kinds reported by the compositor / layout operations (§7 of the
spec: `OutOfBounds`, `InvalidGeometry`, `UnresolvableAsset`). -/
inductive RenderError where
  | outOfBounds
  | invalidGeometry
  | unresolvableAsset
deriving DecidableEq, Repr

/-- An RGBA color, four `u8` channels (`rgba[0..3]` in the source). -/
structure Rgba where
  r : Nat
  g : Nat
  b : Nat
  a : Nat
deriving DecidableEq, Repr

/-- An RGB color, three `u8` channels (`rgb[0..2]` in the source). -/
structure Rgb where
  r : Nat
  g : Nat
  b : Nat
deriving DecidableEq, Repr

/-- Indexing `rgb[j]` for `j ∈ {0,1,2}` as done by the source's array
accesses (`rgb[2 - n]` in `set_color`). -/
def Rgb.get (c : Rgb) (j : Nat) : Nat :=
  match j with
  | 0 => c.r
  | 1 => c.g
  | 2 => c.b
  | _ => 0

/-- Embeds `winit::dpi::LogicalPosition<u32>`. -/
structure LogicalPosition where
  x : Nat
  y : Nat
deriving DecidableEq, Repr

/-- Embeds `winit::dpi::LogicalSize<u32>`. -/
structure LogicalSize where
  width : Nat
  height : Nat
deriving DecidableEq, Repr

/-- Embeds `let alpha_percentage = 100 - (rgba[3] as u16 * 100) / 255;`
(src/renderer/mod.rs line 286).  All divisions truncate, as in Rust. -/
def alpha_percentage (alpha : Nat) : Nat :=
  100 - alpha * 100 / 255

/-- One blended channel:
`(((alpha_percentage * top_color) / 100) + ((alpha_percentage * bottom_color) / 100)) as u8`
(src/renderer/mod.rs lines 294-295).  The `as u8` cast wraps, hence `% 256`. -/
def blended_channel (ap top bottom : Nat) : Nat :=
  (ap * top / 100 + ap * bottom / 100) % 256

/-- Embeds `Renderer::draw_at_pixel_with_rgba` (src/renderer/mod.rs lines 254-299).
Alpha 0 short-circuits to `Ok` before the bounds check; the bounds check is
`pixel_buffer_length < adjusted_pixel_index + 4`; alpha 255 overwrites the
three color bytes; otherwise each color byte is blended.  The error path
performs no write, so it carries no buffer. -/
def draw_at_pixel_with_rgba (pixel_buffer : List Nat) (pixel_index : Nat)
    (rgba : Rgba) : Except RenderError (List Nat) :=
  if rgba.a = 0 then
    .ok pixel_buffer
  else
    let adjusted_pixel_index := pixel_index * 4
    if pixel_buffer.length < adjusted_pixel_index + 4 then
      .error .outOfBounds
    else if rgba.a = 255 then
      .ok (((pixel_buffer.set adjusted_pixel_index rgba.r).set
        (adjusted_pixel_index + 1) rgba.g).set (adjusted_pixel_index + 2) rgba.b)
    else
      let ap := alpha_percentage rgba.a
      .ok (((pixel_buffer.set adjusted_pixel_index
          (blended_channel ap rgba.r (pixel_buffer.getD adjusted_pixel_index 0))).set
        (adjusted_pixel_index + 1)
          (blended_channel ap rgba.g (pixel_buffer.getD (adjusted_pixel_index + 1) 0))).set
        (adjusted_pixel_index + 2)
          (blended_channel ap rgba.b (pixel_buffer.getD (adjusted_pixel_index + 2) 0)))

/-- Embeds `Renderer::draw_at_pixel_with_rgb` (src/renderer/mod.rs lines 307-329):
same bounds check, unconditional overwrite of the three color bytes. -/
def draw_at_pixel_with_rgb (pixel_buffer : List Nat) (pixel_index : Nat)
    (rgb : Rgb) : Except RenderError (List Nat) :=
  let adjusted_pixel_index := pixel_index * 4
  if pixel_buffer.length < adjusted_pixel_index + 4 then
    .error .outOfBounds
  else
    .ok (((pixel_buffer.set adjusted_pixel_index rgb.r).set
      (adjusted_pixel_index + 1) rgb.g).set (adjusted_pixel_index + 2) rgb.b)

/-- Embeds `Renderer::set_color` (src/renderer/mod.rs lines 43-52): every byte of the
buffer is replaced, `iteration % 4 == 3 ↦ 255`, otherwise `rgb[2 - n]` with
`n = iteration % 4`.  The old byte values are ignored, so the result is a
map over the byte positions. -/
def set_color (pixel_buffer : List Nat) (rgb : Rgb) : List Nat :=
  (List.range pixel_buffer.length).map fun iteration =>
    if iteration % 4 = 3 then 255 else rgb.get (2 - iteration % 4)

/-- Writes each pixel index of the list in order via
`draw_at_pixel_with_rgba`, stopping at (and reporting) the first error while
keeping the writes already made — the in-place mutation discipline of the
source's drawing loops. -/
def draw_cells (pixel_buffer : List Nat) (rgba : Rgba) :
    List Nat → List Nat × Option RenderError
  | [] => (pixel_buffer, none)
  | i :: rest =>
    match draw_at_pixel_with_rgba pixel_buffer i rgba with
    | .ok b => draw_cells b rgba rest
    | .error e => (pixel_buffer, some e)

/-- The linear window index of cell number `index` of a rectangle:
`top_left_placement + (index % rectangle_width) + ((index / rectangle_width) * buffer_dimensions.width)`
(src/renderer/mod.rs lines 98-103). -/
def window_index (position : LogicalPosition) (dimensions : LogicalSize)
    (buffer_width : Nat) (index : Nat) : Nat :=
  position.x + position.y * buffer_width + index % dimensions.width
    + index / dimensions.width * buffer_width

/-- Embeds `Renderer::draw_rectangle` (src/renderer/mod.rs lines 84-109): iterates
`0..(rectangle_width * rectangle_height)` delegating each cell to
`draw_at_pixel_with_rgba` at its linear window index. -/
def draw_rectangle (pixel_buffer : List Nat) (position : LogicalPosition)
    (dimensions : LogicalSize) (color : Rgba) (buffer_dimensions : LogicalSize) :
    List Nat × Option RenderError :=
  draw_cells pixel_buffer color
    ((List.range (dimensions.width * dimensions.height)).map
      (window_index position dimensions buffer_dimensions.width))

/-- The spec's claimed per-channel blending formula, written from the spec's
words (for comparison with `blended_channel` above):
`((100 - (alpha*100)/255) * top)/100 + ((100 - (alpha*100)/255) * bottom)/100`,
every division truncating. -/
def claimed_channel_value (alpha top bottom : Nat) : Nat :=
  (100 - alpha * 100 / 255) * top / 100 + (100 - alpha * 100 / 255) * bottom / 100

/-- Embeds `MenuItem` (src/menus/menu_items.rs): an item name and the name of the
asset backing the item. -/
structure MenuItem where
  item_name : String
  asset_name : String
deriving DecidableEq, Repr

/-- The data `calculate_item_positions` reads off a text-box asset: its stored
position (`text_box.position()`) and its dimensions (`text_box.dimensions()`). -/
structure TextBoxAsset where
  position : LogicalPosition
  dimensions : LogicalSize
deriving DecidableEq, Repr

/-- The asset-lookup capability consumed by the menu layout
(`Assets::get_image` and `WorldData::get_text_boxes().get`). -/
structure Assets where
  get_image : String → Option LogicalSize
  get_text_box : String → Option TextBoxAsset

/-- Embeds `Menu` (src/menus/menu_data.rs lines 36-45): name, cursor (`selected`),
item list, and the item positions computed by layout. -/
structure Menu where
  name : String
  selected : Nat
  menu_items : List MenuItem
  menu_item_positions : List LogicalPosition
deriving DecidableEq, Repr

/-- Embeds `Menu::previous` (src/menus/menu_data.rs lines 106-118): no-op on an
empty menu; wraps from 0 to `option_count - 1`; otherwise decrements. -/
def Menu.previous (m : Menu) : Menu :=
  let option_count := m.menu_items.length
  if option_count = 0 then m
  else if m.selected = 0 then { m with selected := option_count - 1 }
  else { m with selected := m.selected - 1 }

/-- Embeds `Menu::next` (src/menus/menu_data.rs lines 122-134): no-op on an empty
menu; wraps from `option_count - 1` to 0; otherwise increments. -/
def Menu.next (m : Menu) : Menu :=
  let option_count := m.menu_items.length
  if option_count = 0 then m
  else if m.selected = option_count - 1 then { m with selected := 0 }
  else { m with selected := m.selected + 1 }

/-- Embeds `Menu::current_option` (src/menus/menu_data.rs lines 139-157): `none` on
an empty menu; the item at the cursor; falls back to the first item when the
cursor is out of range. -/
def Menu.current_option (m : Menu) : Option MenuItem :=
  if m.menu_items.isEmpty then none
  else
    match m.menu_items[m.selected]? with
    | some it => some it
    | none => m.menu_items.head?

/-- The loop body of `Menu::calculate_item_positions`
(src/menus/menu_data.rs lines 224-259): for each asset name, an image asset
yields position `(starting_position.x - width/2, starting_position.y + offset)`
and advances `offset` by the image height; otherwise a text-box asset yields
the text box's own stored position and advances `offset` by the text box's
height; a name resolving to neither stops the loop with an error.  After each
item, `offset += item_offset`.  (The source's `u32` subtraction
`starting_position.x - image_width / 2` is modelled by `Nat` subtraction;
the two agree on every input where the source's subtraction does not
underflow, and the theorems about the x coordinate carry that hypothesis.) -/
def calc_positions_go (assets : Assets) (starting_position : LogicalPosition)
    (item_offset : Nat) :
    List MenuItem → Nat → List LogicalPosition → List LogicalPosition × Option RenderError
  | [], _, acc => (acc, none)
  | item :: rest, offset, acc =>
    match assets.get_image item.asset_name with
    | some image_dims =>
      let position : LogicalPosition :=
        ⟨starting_position.x - image_dims.width / 2, starting_position.y + offset⟩
      calc_positions_go assets starting_position item_offset rest
        (offset + image_dims.height + item_offset) (acc ++ [position])
    | none =>
      match assets.get_text_box item.asset_name with
      | some text_box =>
        calc_positions_go assets starting_position item_offset rest
          (offset + text_box.dimensions.height + item_offset) (acc ++ [text_box.position])
      | none => (acc, some .unresolvableAsset)

/-- Embeds `Menu::calculate_item_positions` (src/menus/menu_data.rs lines 215-260):
clears the stored positions, then runs the loop above starting from
`offset = 0`; on error the positions pushed before the failure are kept. -/
def Menu.calculate_item_positions (m : Menu) (assets : Assets)
    (starting_position : LogicalPosition) (item_offset : Nat) :
    Menu × Option RenderError :=
  match calc_positions_go assets starting_position item_offset m.menu_items 0 [] with
  | (positions, e) => ({ m with menu_item_positions := positions }, e)

/-- Embeds `Menu::new` (src/menus/menu_data.rs lines 78-93): builds the menu with
cursor 0 and empty positions, then runs `calculate_item_positions`,
propagating its error. -/
def Menu.mk_new (assets : Assets) (name : String) (menu_items : List MenuItem)
    (position : LogicalPosition) (item_offset : Nat) : Except RenderError Menu :=
  let menu : Menu := ⟨name, 0, menu_items, []⟩
  match menu.calculate_item_positions assets position item_offset with
  | (m, none) => .ok m
  | (_, some e) => .error e

/-- An asset name resolves when it names either an image or a text box. -/
def resolves (assets : Assets) (item : MenuItem) : Prop :=
  assets.get_image item.asset_name ≠ none ∨ assets.get_text_box item.asset_name ≠ none

instance (assets : Assets) (item : MenuItem) : Decidable (resolves assets item) := by
  unfold resolves
  infer_instance

/-- The vertical offset accumulated by `calculate_item_positions` over a
list of (resolving) items: each item contributes its asset's height plus the
item offset. -/
def running_offset (assets : Assets) (item_offset : Nat) : List MenuItem → Nat
  | [] => 0
  | item :: rest =>
    (match assets.get_image item.asset_name with
     | some image_dims => image_dims.height
     | none =>
       match assets.get_text_box item.asset_name with
       | some text_box => text_box.dimensions.height
       | none => 0)
      + item_offset + running_offset assets item_offset rest

/-- The glyph top-left placement computed by `<TextBox as Renderable>::render`
(src/renderer/text_boxes.rs lines 249-252):
`glyph.x + (((text_box_y + text_box_height) as i32 - (metrics.ymin + metrics.height as i32)).max(0) as u32 * buffer_width)`.
`ymin` is the glyph's `i32` baseline minimum; the `.max(0)` and the
`as u32` cast of a non-negative `i32` are `Int.max` and `Int.toNat`. -/
def glyph_top_left_placement (glyph_x text_box_y text_box_height : Nat)
    (ymin : Int) (char_height : Nat) (buffer_width : Nat) : Nat :=
  glyph_x
    + (max (((text_box_y + text_box_height : Nat) : Int) - (ymin + (char_height : Int))) 0).toNat
      * buffer_width

/-- The per-cell buffer position of the glyph loop
(src/renderer/text_boxes.rs lines 254-257):
`top_left_placement + (index % char_width) + ((index / char_width) * buffer_width)`. -/
def glyph_pixel_position (top_left_placement index char_width buffer_width : Nat) : Nat :=
  top_left_placement + index % char_width + index / char_width * buffer_width

/-- The spec's claimed vertical placement, written from the spec's words:
`placement_y = (text_box_y + text_box_height) - (glyph_baseline_min + glyph_height)`,
clamped at zero when the difference is negative (`Int.toNat` clamps). -/
def spec_placement_y (text_box_y text_box_height : Nat)
    (glyph_baseline_min : Int) (glyph_height : Nat) : Nat :=
  (((text_box_y + text_box_height : Nat) : Int)
    - (glyph_baseline_min + (glyph_height : Int))).toNat

/-- Modelled from the spec: the core stepping loop of the integer Bresenham
line rasterization of `draw_line` (§4.1), which is not present under `src/`
(only a caller of the renderer's line primitives is).  Standard integer
Bresenham: plot, then advance `x` and/or `y` by the signs `sx`/`sy`
according to the doubled error term.  `fuel` bounds the walk. -/
def bresenham_go (fuel : Nat) (x0 y0 x1 y1 dx dy sx sy err : Int) :
    List (Int × Int) :=
  match fuel with
  | 0 => []
  | fuel' + 1 =>
    if x0 = x1 ∧ y0 = y1 then [(x0, y0)]
    else
      let e2 := 2 * err
      let err' := if e2 ≥ dy then err + dy else err
      let x0' := if e2 ≥ dy then x0 + sx else x0
      let err'' := if e2 ≤ dx then err' + dx else err'
      let y0' := if e2 ≤ dx then y0 + sy else y0
      (x0, y0) :: bresenham_go fuel' x0' y0' x1 y1 dx dy sx sy err''

/-- Modelled from the spec: the full Bresenham walk between two points
(§4.1 `draw_line`), visiting every cell of the rasterized line. -/
def bresenham (x0 y0 x1 y1 : Int) : List (Int × Int) :=
  let dx : Int := (x1 - x0).natAbs
  let dy : Int := -((y1 - y0).natAbs : Int)
  let sx : Int := if x0 < x1 then 1 else -1
  let sy : Int := if y0 < y1 then 1 else -1
  bresenham_go ((x1 - x0).natAbs + (y1 - y0).natAbs + 1) x0 y0 x1 y1 dx dy sx sy (dx + dy)

/-- Modelled from the spec: `draw_line(buffer, point_a, point_b, color)`
(§4.1), which is not present under `src/`.  Per the spec it "fails if either
coordinate is non-positive" (`InvalidGeometry`, §7) before any write, and
otherwise visits each cell of the integer Bresenham line between the two
points, writing each visited cell via `write_pixel` at its linear index
(glossary: `row*width + column`). -/
def draw_line (pixel_buffer : List Nat) (point_a point_b : Int × Int)
    (color : Rgba) (buffer_width : Nat) : List Nat × Option RenderError :=
  if point_a.1 ≤ 0 ∨ point_a.2 ≤ 0 ∨ point_b.1 ≤ 0 ∨ point_b.2 ≤ 0 then
    (pixel_buffer, some .invalidGeometry)
  else
    draw_cells pixel_buffer color
      ((bresenham point_a.1 point_a.2 point_b.1 point_b.2).map
        (fun p => p.2.toNat * buffer_width + p.1.toNat))

/-- A small concrete asset registry used to instantiate the layout theorems:
one image asset of width 40 and one text-box asset. -/
def sample_assets : Assets where
  get_image := fun n => if n = "image_item" then some ⟨40, 12⟩ else none
  get_text_box := fun n => if n = "text_item" then some ⟨⟨5, 6⟩, ⟨30, 8⟩⟩ else none

/-! ## Supporting lemmas -/

theorem rgba_error_out_of_bounds {buf : List Nat} {i : Nat} {c : Rgba}
    {e : RenderError} (h : draw_at_pixel_with_rgba buf i c = .error e) :
    e = .outOfBounds := by
  simp only [draw_at_pixel_with_rgba] at h
  split_ifs at h; simp_all

theorem rgba_oob {buf : List Nat} {i : Nat} {c : Rgba} (ha : c.a ≠ 0)
    (h : buf.length < i * 4 + 4) :
    draw_at_pixel_with_rgba buf i c = .error .outOfBounds := by
  simp only [draw_at_pixel_with_rgba]
  split_ifs <;> first | rfl | omega

theorem rgba_ok_of_inbounds (buf : List Nat) (i : Nat) (c : Rgba)
    (h : i * 4 + 4 ≤ buf.length) :
    ∃ b, draw_at_pixel_with_rgba buf i c = .ok b ∧ b.length = buf.length := by
  simp only [draw_at_pixel_with_rgba]
  split_ifs with h1 h2 h3
  · exact ⟨buf, rfl, rfl⟩
  · omega
  · exact ⟨_, rfl, by simp⟩
  · exact ⟨_, rfl, by simp⟩

theorem draw_cells_some_oob {c : Rgba} (ha : c.a ≠ 0) :
    ∀ (idxs : List Nat) (buf : List Nat),
      (∃ i ∈ idxs, buf.length < i * 4 + 4) →
      (draw_cells buf c idxs).2 = some .outOfBounds := by
  intro idxs
  induction idxs with
  | nil =>
    intro buf h
    rcases h with ⟨i, hi, _⟩
    simp at hi
  | cons i0 rest ih =>
    intro buf h
    by_cases hb : buf.length < i0 * 4 + 4
    · have hd := rgba_oob ha hb
      simp [draw_cells, hd]
    · obtain ⟨b, hbok, hlen⟩ := rgba_ok_of_inbounds buf i0 c (by omega)
      simp only [draw_cells, hbok]
      apply ih
      rcases h with ⟨i, hi, hioob⟩
      rcases List.mem_cons.mp hi with rfl | hmem
      · omega
      · exact ⟨i, hmem, by omega⟩

theorem draw_cells_none {c : Rgba} :
    ∀ (idxs : List Nat) (buf : List Nat),
      (∀ i ∈ idxs, i * 4 + 4 ≤ buf.length) →
      (draw_cells buf c idxs).2 = none ∧
        (draw_cells buf c idxs).1.length = buf.length := by
  intro idxs
  induction idxs with
  | nil => intro buf _; exact ⟨rfl, rfl⟩
  | cons i0 rest ih =>
    intro buf h
    obtain ⟨b, hbok, hlen⟩ := rgba_ok_of_inbounds buf i0 c (h i0 (by simp))
    simp only [draw_cells, hbok]
    have := ih b (by intro i hi; have := h i (List.mem_cons_of_mem _ hi); omega)
    exact ⟨this.1, by rw [this.2, hlen]⟩

/-! ## Claims -/

/-- C1, the claim as stated is refuted at a concrete input: blending the
color `(255,255,255)` with alpha 1 over a white pixel stores 254 in each
channel, while the claimed formula
`((100 - (alpha*100)/255) * top)/100 + ((100 - (alpha*100)/255) * bottom)/100`
evaluates to 510: the `as u8` cast wraps the sum modulo 256, so the stored
byte is not "exactly that formula's value truncated to an integer". -/
theorem c1_counterexample :
    draw_at_pixel_with_rgba [255, 255, 255, 255] 0 ⟨255, 255, 255, 1⟩
        = .ok [254, 254, 254, 255] ∧
      claimed_channel_value 1 255 255 = 510 ∧ (254 : Nat) ≠ 510 :=
  ⟨rfl, rfl, by decide⟩

/-- C1 (amended): for every in-bounds pixel index and every color whose
alpha is strictly between 0 and 255, `draw_at_pixel_with_rgba` succeeds and
stores in each of the three color channels the claimed formula's value
reduced modulo 256 (the formula's value exactly whenever it is at most 255),
for all prior buffer contents. -/
theorem c1_amended (buf : List Nat) (i : Nat) (c : Rgba) (h0 : 0 < c.a)
    (h255 : c.a < 255) (hb : i * 4 + 4 ≤ buf.length) :
    ∃ b, draw_at_pixel_with_rgba buf i c = .ok b ∧
      b[i * 4]? = some (claimed_channel_value c.a c.r (buf.getD (i * 4) 0) % 256) ∧
      b[i * 4 + 1]? = some (claimed_channel_value c.a c.g (buf.getD (i * 4 + 1) 0) % 256) ∧
      b[i * 4 + 2]? = some (claimed_channel_value c.a c.b (buf.getD (i * 4 + 2) 0) % 256) := by
  simp only [draw_at_pixel_with_rgba]
  rw [if_neg (by omega), if_neg (by omega), if_neg (by omega)]
  refine ⟨_, rfl, ?_, ?_, ?_⟩
  · rw [List.getElem?_set_ne (by omega), List.getElem?_set_ne (by omega),
      List.getElem?_set_self (by omega)]
    rfl
  · rw [List.getElem?_set_ne (by omega),
      List.getElem?_set_self (by simp; omega)]
    rfl
  · rw [List.getElem?_set_self (by simp; omega)]
    rfl

/-- C1 witness: the amended theorem applied at the repository's own test
fixture (buffer pixel `[0x77,0x77,0x77,0xFF]`, blend color
`[0xFF,0xFF,0xFF,0x7F]`). -/
theorem c1_witness :
    ∃ b, draw_at_pixel_with_rgba [119, 119, 119, 255] 0 ⟨255, 255, 255, 127⟩ = .ok b ∧
      b[0 * 4]? = some (claimed_channel_value 127 255
        (List.getD [119, 119, 119, 255] (0 * 4) 0) % 256) ∧
      b[0 * 4 + 1]? = some (claimed_channel_value 127 255
        (List.getD [119, 119, 119, 255] (0 * 4 + 1) 0) % 256) ∧
      b[0 * 4 + 2]? = some (claimed_channel_value 127 255
        (List.getD [119, 119, 119, 255] (0 * 4 + 2) 0) % 256) :=
  c1_amended [119, 119, 119, 255] 0 ⟨255, 255, 255, 127⟩ (by decide) (by decide)
    (by decide)

/-- C2, the claim as stated is refuted at concrete inputs: (1) with alpha 0
the out-of-bounds index 0 into the empty buffer is *not* reported — the
alpha-0 short-circuit precedes the bounds check, so `write_pixel` returns
success; (2) a 1×2 rectangle over a 1-pixel buffer reports the error but
leaves the buffer changed — the first cell was already written. -/
theorem c2_counterexample :
    draw_at_pixel_with_rgba [] 0 ⟨255, 255, 255, 0⟩ = .ok [] ∧
      draw_rectangle [0, 0, 0, 0] ⟨0, 0⟩ ⟨1, 2⟩ ⟨255, 255, 255, 255⟩ ⟨1, 1⟩
        = ([255, 255, 255, 0], some .outOfBounds) ∧
      ([255, 255, 255, 0] : List Nat) ≠ [0, 0, 0, 0] :=
  ⟨rfl, rfl, by decide⟩

/-- C2 (amended): for every color with *nonzero* alpha, `write_pixel` at an
index whose 4-byte span exceeds the buffer length reports `OutOfBounds`
without writing, and `fill_rectangle` over a rectangle containing such an
index reports `OutOfBounds` (cells preceding the first out-of-bounds cell
may already have been written; with alpha 0 both return success without
reporting). -/
theorem c2_amended (buf : List Nat) (i : Nat) (c : Rgba)
    (pos : LogicalPosition) (dims : LogicalSize)
    (buffer_dimensions : LogicalSize) (ha : c.a ≠ 0) :
    (buf.length < i * 4 + 4 →
      draw_at_pixel_with_rgba buf i c = .error .outOfBounds) ∧
    ((∃ idx, idx < dims.width * dims.height ∧
        buf.length < window_index pos dims buffer_dimensions.width idx * 4 + 4) →
      (draw_rectangle buf pos dims c buffer_dimensions).2 = some .outOfBounds) := by
  constructor
  · intro h
    exact rgba_oob ha h
  · rintro ⟨idx, hidx, hoob⟩
    apply draw_cells_some_oob ha
    exact ⟨_, List.mem_map_of_mem _ (List.mem_range.mpr hidx), hoob⟩

/-- C2 witness: an opaque write at index 0 of the empty buffer reports
`OutOfBounds`. -/
theorem c2_witness :
    draw_at_pixel_with_rgba [] 0 ⟨255, 255, 255, 255⟩ = .error .outOfBounds :=
  (c2_amended [] 0 ⟨255, 255, 255, 255⟩ ⟨0, 0⟩ ⟨1, 1⟩ ⟨1, 1⟩ (by decide)).1
    (by decide)

/-- C3, the claim as stated is refuted at a concrete input: on a 2×2 buffer,
the 2×1 rectangle at (1,0) sticks out past the right edge (its right edge 1+2
exceeds the buffer width 2), yet `draw_rectangle` completes successfully —
the overhanging cell's linear index wraps onto the next row and is written
there, because the only check is the per-pixel linear bounds check. -/
theorem c3_counterexample :
    (draw_rectangle [0, 0, 0, 0, 0, 0, 0, 0, 0, 0, 0, 0, 0, 0, 0, 0]
        ⟨1, 0⟩ ⟨2, 1⟩ ⟨9, 9, 9, 255⟩ ⟨2, 2⟩).2 = none ∧
      (draw_rectangle [0, 0, 0, 0, 0, 0, 0, 0, 0, 0, 0, 0, 0, 0, 0, 0]
        ⟨1, 0⟩ ⟨2, 1⟩ ⟨9, 9, 9, 255⟩ ⟨2, 2⟩).1
        = [0, 0, 0, 0, 9, 9, 9, 0, 9, 9, 9, 0, 0, 0, 0, 0] ∧
      (2 : Nat) < 1 + 2 :=
  ⟨rfl, rfl, by decide⟩

/-- C3 (amended): `draw_rectangle` has no special-casing beyond the
per-pixel linear bounds check: a rectangle all of whose cells' linear window
indices span bytes within the buffer completes successfully — even when it
is partially off-buffer horizontally, in which case overhanging cells wrap
onto subsequent rows — and a rectangle containing a cell whose linear index
is out of bounds fails (for nonzero alpha) rather than clipping. -/
theorem c3_amended (buf : List Nat) (pos : LogicalPosition)
    (dims : LogicalSize) (c : Rgba) (buffer_dimensions : LogicalSize) :
    ((∀ idx, idx < dims.width * dims.height →
        window_index pos dims buffer_dimensions.width idx * 4 + 4 ≤ buf.length) →
      (draw_rectangle buf pos dims c buffer_dimensions).2 = none) ∧
    (c.a ≠ 0 →
      (∃ idx, idx < dims.width * dims.height ∧
        buf.length < window_index pos dims buffer_dimensions.width idx * 4 + 4) →
      (draw_rectangle buf pos dims c buffer_dimensions).2 = some .outOfBounds) := by
  constructor
  · intro h
    refine (draw_cells_none _ buf ?_).1
    intro i hi
    rcases List.mem_map.mp hi with ⟨idx, hidx, rfl⟩
    exact h idx (List.mem_range.mp hidx)
  · rintro ha ⟨idx, hidx, hoob⟩
    apply draw_cells_some_oob ha
    exact ⟨_, List.mem_map_of_mem _ (List.mem_range.mpr hidx), hoob⟩

/-- C3 witness: a fully in-bounds 1×1 rectangle completes successfully. -/
theorem c3_witness :
    (draw_rectangle [0, 0, 0, 0] ⟨0, 0⟩ ⟨1, 1⟩ ⟨1, 2, 3, 255⟩ ⟨1, 1⟩).2 = none :=
  (c3_amended [0, 0, 0, 0] ⟨0, 0⟩ ⟨1, 1⟩ ⟨1, 2, 3, 255⟩ ⟨1, 1⟩).1 (by
    intro idx hidx
    simp at hidx
    subst hidx
    decide)

/-- C8, the claim as stated is refuted at a concrete input: `set_color` with
the triple `[1,2,3]` stores the color bytes `[3,2,1]` (it writes
`rgb[2 - n]` at channel `n`), while `draw_at_pixel_with_rgb` with the same
triple stores `[1,2,3]` — the first stored color byte differs (3 ≠ 1), so
the channel layout is not the same across the two write operations. -/
theorem c8_counterexample :
    set_color [0, 0, 0, 0] ⟨1, 2, 3⟩ = [3, 2, 1, 255] ∧
      draw_at_pixel_with_rgb [0, 0, 0, 0] 0 ⟨1, 2, 3⟩ = .ok [1, 2, 3, 0] ∧
      (3 : Nat) ≠ 1 :=
  ⟨rfl, rfl, by decide⟩

/-- C8 (amended): the two operations store the triple in *reversed* channel
orders: at every in-bounds pixel, color byte `j` stored by
`set_color([r,g,b])` is the triple's entry `2 - j`, while color byte `j`
stored by `draw_at_pixel_with_rgb` with the same triple is entry `j`; the
stored color bytes therefore coincide exactly when `r = b`. -/
theorem c8_amended (buf : List Nat) (c : Rgb) (i j : Nat) (hj : j < 3)
    (hb : i * 4 + 4 ≤ buf.length) :
    (set_color buf c)[i * 4 + j]? = some (c.get (2 - j)) ∧
    ∀ b, draw_at_pixel_with_rgb buf i c = .ok b →
      b[i * 4 + j]? = some (c.get j) := by
  constructor
  · have hlt : i * 4 + j < buf.length := by omega
    have hmod : (i * 4 + j) % 4 = j := by omega
    simp only [set_color, List.getElem?_map, List.getElem?_range, hlt,
      if_pos hlt]
    simp [hmod]
    omega
  · intro b hbok
    simp only [draw_at_pixel_with_rgb] at hbok
    rw [if_neg (by omega)] at hbok
    have hb' : b = ((buf.set (i * 4) c.r).set (i * 4 + 1) c.g).set (i * 4 + 2) c.b := by
      simpa using hbok.symm
    subst hb'
    interval_cases j
    · simp only [Nat.add_zero]
      rw [List.getElem?_set_ne (by omega), List.getElem?_set_ne (by omega),
        List.getElem?_set_self (by omega)]
      rfl
    · rw [List.getElem?_set_ne (by omega),
        List.getElem?_set_self (by simp; omega)]
      rfl
    · rw [List.getElem?_set_self (by simp; omega)]
      rfl

/-- C8 witness: the amended theorem at pixel 0, channel 0 of a 1-pixel
buffer. -/
theorem c8_witness :
    (set_color [0, 0, 0, 0] ⟨1, 2, 3⟩)[0 * 4 + 0]? = some (Rgb.get ⟨1, 2, 3⟩ (2 - 0)) ∧
    ∀ b, draw_at_pixel_with_rgb [0, 0, 0, 0] 0 ⟨1, 2, 3⟩ = .ok b →
      b[0 * 4 + 0]? = some (Rgb.get ⟨1, 2, 3⟩ 0) :=
  c8_amended [0, 0, 0, 0] ⟨1, 2, 3⟩ 0 0 (by decide) (by decide)

/-- C10 (confirmed): every single-pixel write — blending, opaque or
transparent `draw_at_pixel_with_rgba`, and `draw_at_pixel_with_rgb` —
leaves the buffer length unchanged and modifies at most the three color
bytes `4i`, `4i+1`, `4i+2` of the addressed pixel `i`: every byte below
`4i`, the alpha byte `4i+3`, and every byte from `4i+4` on is unchanged on
success (and the error path performs no write at all). -/
theorem c10_pixel_write_frame (buf : List Nat) (i : Nat) (c : Rgba) (c' : Rgb)
    (j : Nat) (hj : j < i * 4 ∨ j = i * 4 + 3 ∨ i * 4 + 4 ≤ j) :
    (∀ b, draw_at_pixel_with_rgba buf i c = .ok b →
      b.length = buf.length ∧ b[j]? = buf[j]?) ∧
    (∀ b, draw_at_pixel_with_rgb buf i c' = .ok b →
      b.length = buf.length ∧ b[j]? = buf[j]?) := by
  constructor
  · intro b hbok
    simp only [draw_at_pixel_with_rgba] at hbok
    split_ifs at hbok with h1 h2 h3
    · cases hbok
      exact ⟨rfl, rfl⟩
    · have hb' : b = ((buf.set (i * 4) c.r).set (i * 4 + 1) c.g).set (i * 4 + 2) c.b := by
        simpa using hbok.symm
      subst hb'
      refine ⟨by simp, ?_⟩
      rw [List.getElem?_set_ne (by omega), List.getElem?_set_ne (by omega),
        List.getElem?_set_ne (by omega)]
    · have hb' : b =
          ((buf.set (i * 4)
              (blended_channel (alpha_percentage c.a) c.r (buf.getD (i * 4) 0))).set
            (i * 4 + 1)
              (blended_channel (alpha_percentage c.a) c.g (buf.getD (i * 4 + 1) 0))).set
            (i * 4 + 2)
              (blended_channel (alpha_percentage c.a) c.b (buf.getD (i * 4 + 2) 0)) := by
        simpa using hbok.symm
      subst hb'
      refine ⟨by simp, ?_⟩
      rw [List.getElem?_set_ne (by omega), List.getElem?_set_ne (by omega),
        List.getElem?_set_ne (by omega)]
  · intro b hbok
    simp only [draw_at_pixel_with_rgb] at hbok
    split_ifs at hbok
    have hb' : b = ((buf.set (i * 4) c'.r).set (i * 4 + 1) c'.g).set (i * 4 + 2) c'.b := by
      simpa using hbok.symm
    subst hb'
    refine ⟨by simp, ?_⟩
    rw [List.getElem?_set_ne (by omega), List.getElem?_set_ne (by omega),
      List.getElem?_set_ne (by omega)]

/-- C10 witness: an opaque write at pixel 0 leaves the alpha byte (offset 3)
unchanged. -/
theorem c10_witness :
    ([1, 2, 3, 7] : List Nat).length = ([9, 9, 9, 7] : List Nat).length ∧
      ([1, 2, 3, 7] : List Nat)[3]? = ([9, 9, 9, 7] : List Nat)[3]? :=
  (c10_pixel_write_frame [9, 9, 9, 7] 0 ⟨1, 2, 3, 255⟩ ⟨0, 0, 0⟩ 3
    (by omega)).1 [1, 2, 3, 7] rfl

theorem next_menu_items (m : Menu) : m.next.menu_items = m.menu_items := by
  simp only [Menu.next]
  split_ifs <;> rfl

theorem next_iter_selected (m : Menu) :
    ∀ k, m.selected = 0 → k < m.menu_items.length →
      (Menu.next^[k] m).selected = k ∧
        (Menu.next^[k] m).menu_items = m.menu_items := by
  intro k
  induction k with
  | zero => intro h0 _; exact ⟨h0, rfl⟩
  | succ k ih =>
    intro h0 hk
    obtain ⟨hsel, hitems⟩ := ih h0 (by omega)
    rw [Function.iterate_succ_apply']
    refine ⟨?_, by rw [next_menu_items, hitems]⟩
    simp only [Menu.next, hitems, hsel]
    rw [if_neg (by omega), if_neg (by omega)]

/-- C5 (confirmed): on a non-empty menu starting at cursor 0, calling
`next()` `items.length` times returns the cursor to 0, and `previous()` at
cursor 0 moves the cursor to `items.length - 1`; on an empty menu both
`next()` and `previous()` leave the menu unchanged. -/
theorem c5_cursor_wraparound (m : Menu) :
    (m.menu_items ≠ [] → m.selected = 0 →
      (Menu.next^[m.menu_items.length] m).selected = 0) ∧
    (m.menu_items ≠ [] → m.selected = 0 →
      m.previous.selected = m.menu_items.length - 1) ∧
    (m.menu_items = [] → m.next = m ∧ m.previous = m) := by
  refine ⟨?_, ?_, ?_⟩
  · intro hne h0
    have hlen : 0 < m.menu_items.length := List.length_pos.mpr hne
    obtain ⟨hsel, hitems⟩ :=
      next_iter_selected m (m.menu_items.length - 1) h0 (by omega)
    have hstep : m.menu_items.length = (m.menu_items.length - 1) + 1 := by omega
    rw [hstep, Function.iterate_succ_apply']
    simp only [Menu.next, hitems, hsel]
    split_ifs <;> first | rfl | omega
  · intro hne h0
    have hlen : 0 < m.menu_items.length := List.length_pos.mpr hne
    simp only [Menu.previous]
    rw [if_neg (by omega), if_pos h0]
  · intro he
    constructor
    · simp only [Menu.next, he]
      rfl
    · simp only [Menu.previous, he]
      rfl

/-- C5 witness: a three-item menu wraps back to cursor 0 after three `next()`
calls. -/
theorem c5_witness :
    (Menu.next^[(⟨"m", 0, [⟨"i1", "a1"⟩, ⟨"i2", "a2"⟩, ⟨"i3", "a3"⟩], []⟩ :
        Menu).menu_items.length]
      (⟨"m", 0, [⟨"i1", "a1"⟩, ⟨"i2", "a2"⟩, ⟨"i3", "a3"⟩], []⟩ : Menu)).selected = 0 :=
  (c5_cursor_wraparound ⟨"m", 0, [⟨"i1", "a1"⟩, ⟨"i2", "a2"⟩, ⟨"i3", "a3"⟩], []⟩).1
    (by simp) rfl

/-- C6 (confirmed): the cursor invariant `0 ≤ cursor < items.length`
(non-empty menu) holds at creation — `Menu::new` always yields cursor 0 with
the given items — and is preserved by every operation: `previous` and `next`
keep the cursor strictly below the (unchanged) item count, a successful or
failed `calculate_item_positions` changes neither cursor nor items, and on a
menu satisfying the invariant `current_option` returns exactly the item at
the cursor (the defensive fallback is never taken). -/
theorem c6_cursor_invariant :
    (∀ (assets : Assets) (name : String) (items : List MenuItem)
        (pos : LogicalPosition) (off : Nat) (m' : Menu),
      Menu.mk_new assets name items pos off = .ok m' →
        m'.selected = 0 ∧ m'.menu_items = items) ∧
    (∀ m : Menu, m.selected < m.menu_items.length →
      m.previous.selected < m.previous.menu_items.length) ∧
    (∀ m : Menu, m.selected < m.menu_items.length →
      m.next.selected < m.next.menu_items.length) ∧
    (∀ (m : Menu) (assets : Assets) (pos : LogicalPosition) (off : Nat),
      (m.calculate_item_positions assets pos off).1.selected = m.selected ∧
        (m.calculate_item_positions assets pos off).1.menu_items = m.menu_items) ∧
    (∀ m : Menu, m.selected < m.menu_items.length →
      m.current_option = m.menu_items[m.selected]?) := by
  refine ⟨?_, ?_, ?_, ?_, ?_⟩
  · intro assets name items pos off m' h
    simp only [Menu.mk_new, Menu.calculate_item_positions] at h
    rcases hgo : calc_positions_go assets pos off items 0 [] with ⟨positions, e⟩
    rw [hgo] at h
    cases e with
    | none =>
      simp only [Except.ok.injEq] at h
      rw [← h]
      exact ⟨rfl, rfl⟩
    | some e' => simp at h
  · intro m h
    simp only [Menu.previous]
    split_ifs <;> first | assumption | (simp; omega)
  · intro m h
    simp only [Menu.next]
    split_ifs <;> first | assumption | (simp; omega)
  · intro m assets pos off
    exact ⟨rfl, rfl⟩
  · intro m h
    have hne : ¬m.menu_items.isEmpty := by
      rw [List.isEmpty_iff]
      intro he
      rw [he] at h
      simp at h
    simp only [Menu.current_option, hne]
    rw [List.getElem?_eq_getElem h]
    simp

/-- C6 witness: `Menu::new` over the sample registry yields cursor 0, and
`previous` preserves the invariant on a concrete one-item menu. -/
theorem c6_witness :
    ((⟨"m", 0, [⟨"one", "image_item"⟩], [⟨0, 20⟩]⟩ : Menu).selected = 0 ∧
      (⟨"m", 0, [⟨"one", "image_item"⟩], [⟨0, 20⟩]⟩ : Menu).menu_items
        = [⟨"one", "image_item"⟩]) ∧
    (Menu.previous ⟨"m", 0, [⟨"one", "image_item"⟩], []⟩).selected
      < (Menu.previous ⟨"m", 0, [⟨"one", "image_item"⟩], []⟩).menu_items.length :=
  ⟨(c6_cursor_invariant.1 sample_assets "m" [⟨"one", "image_item"⟩] ⟨20, 20⟩ 10
      ⟨"m", 0, [⟨"one", "image_item"⟩], [⟨0, 20⟩]⟩ (by rfl)),
    c6_cursor_invariant.2.1 ⟨"m", 0, [⟨"one", "image_item"⟩], []⟩ (by decide)⟩

theorem running_offset_cons_image (assets : Assets) (off : Nat)
    (item : MenuItem) (rest : List MenuItem) (dims : LogicalSize)
    (h : assets.get_image item.asset_name = some dims) :
    running_offset assets off (item :: rest)
      = dims.height + off + running_offset assets off rest := by
  simp only [running_offset, h]

theorem running_offset_cons_text (assets : Assets) (off : Nat)
    (item : MenuItem) (rest : List MenuItem) (tb : TextBoxAsset)
    (h1 : assets.get_image item.asset_name = none)
    (h2 : assets.get_text_box item.asset_name = some tb) :
    running_offset assets off (item :: rest)
      = tb.dimensions.height + off + running_offset assets off rest := by
  simp only [running_offset, h1, h2]

theorem calc_go_spec (assets : Assets) (sp : LogicalPosition) (off : Nat) :
    ∀ (items : List MenuItem) (offset : Nat) (acc : List LogicalPosition),
      (∀ it ∈ items, resolves assets it) →
      (calc_positions_go assets sp off items offset acc).2 = none ∧
      (calc_positions_go assets sp off items offset acc).1.length
        = acc.length + items.length ∧
      (∀ j, j < acc.length →
        (calc_positions_go assets sp off items offset acc).1[j]? = acc[j]?) ∧
      (∀ (i : Nat) (it : MenuItem) (dims : LogicalSize), items[i]? = some it →
        assets.get_image it.asset_name = some dims →
        (calc_positions_go assets sp off items offset acc).1[acc.length + i]?
          = some ⟨sp.x - dims.width / 2,
              sp.y + offset + running_offset assets off (List.take i items)⟩) := by
  intro items
  induction items with
  | nil =>
    intro offset acc _
    refine ⟨rfl, by simp [calc_positions_go], fun j _ => rfl, ?_⟩
    intro i it dims hit _
    simp at hit
  | cons item rest ih =>
    intro offset acc hres
    have hresRest : ∀ it ∈ rest, resolves assets it :=
      fun it h => hres it (List.mem_cons_of_mem _ h)
    cases himg : assets.get_image item.asset_name with
    | some dims =>
      obtain ⟨h1, h2, h3, h4⟩ := ih (offset + dims.height + off)
        (acc ++ [⟨sp.x - dims.width / 2, sp.y + offset⟩]) hresRest
      simp only [calc_positions_go, himg]
      refine ⟨h1, ?_, ?_, ?_⟩
      · rw [h2]
        simp
        omega
      · intro j hj
        rw [h3 j (by simp; omega)]
        exact List.getElem?_append_left (by omega)
      · intro i it dims' hit himg'
        cases i with
        | zero =>
          simp only [List.getElem?_cons_zero, Option.some.injEq] at hit
          subst hit
          rw [himg] at himg'
          injection himg' with hd
          subst hd
          have hpre := h3 acc.length (by simp)
          rw [show acc.length + 0 = acc.length from rfl, hpre,
            List.getElem?_append_right (Nat.le_refl _)]
          simp only [Nat.sub_self, List.getElem?_cons_zero, List.take_zero,
            running_offset, Option.some.injEq, LogicalPosition.mk.injEq]
          exact ⟨trivial, by omega⟩
        | succ i' =>
          rw [List.getElem?_cons_succ] at hit
          have h4' := h4 i' it dims' hit himg'
          have hidx : acc.length + (i' + 1)
              = (acc ++ [(⟨sp.x - dims.width / 2, sp.y + offset⟩ :
                  LogicalPosition)]).length + i' := by
            simp
            omega
          rw [hidx, h4', List.take_succ_cons,
            running_offset_cons_image assets off item _ dims himg]
          simp only [Option.some.injEq, LogicalPosition.mk.injEq]
          exact ⟨trivial, by omega⟩
    | none =>
      have htb : ∃ tb, assets.get_text_box item.asset_name = some tb := by
        rcases hres item (by simp) with h | h
        · exact absurd himg h
        · rcases ho : assets.get_text_box item.asset_name with _ | tb
          · exact absurd ho h
          · exact ⟨tb, rfl⟩
      obtain ⟨tb, htb⟩ := htb
      obtain ⟨h1, h2, h3, h4⟩ := ih (offset + tb.dimensions.height + off)
        (acc ++ [tb.position]) hresRest
      simp only [calc_positions_go, himg, htb]
      refine ⟨h1, ?_, ?_, ?_⟩
      · rw [h2]
        simp
        omega
      · intro j hj
        rw [h3 j (by simp; omega)]
        exact List.getElem?_append_left (by omega)
      · intro i it dims' hit himg'
        cases i with
        | zero =>
          simp only [List.getElem?_cons_zero, Option.some.injEq] at hit
          subst hit
          simp [himg] at himg'
        | succ i' =>
          rw [List.getElem?_cons_succ] at hit
          have h4' := h4 i' it dims' hit himg'
          have hidx : acc.length + (i' + 1) = (acc ++ [tb.position]).length + i' := by
            simp
            omega
          rw [hidx, h4', List.take_succ_cons,
            running_offset_cons_text assets off item _ tb himg htb]
          simp only [Option.some.injEq, LogicalPosition.mk.injEq]
          exact ⟨trivial, by omega⟩

/-- C4 (confirmed): when every item's asset name resolves,
`calculate_item_positions` succeeds, stores exactly as many positions as
there are items, and every image-backed item is horizontally centered —
its stored x is `anchor.x - width/2` (for inputs where the source's `u32`
subtraction is defined) — with vertical position `anchor.y` plus the running
offset accumulated from the preceding items' heights plus the item offset. -/
theorem c4_layout (assets : Assets) (m : Menu) (sp : LogicalPosition)
    (off : Nat) (hres : ∀ it ∈ m.menu_items, resolves assets it) :
    (m.calculate_item_positions assets sp off).2 = none ∧
    (m.calculate_item_positions assets sp off).1.menu_item_positions.length
      = m.menu_items.length ∧
    (∀ (i : Nat) (it : MenuItem) (dims : LogicalSize), m.menu_items[i]? = some it →
      assets.get_image it.asset_name = some dims →
      dims.width / 2 ≤ sp.x →
      (m.calculate_item_positions assets sp off).1.menu_item_positions[i]?
        = some ⟨sp.x - dims.width / 2,
            sp.y + running_offset assets off (List.take i m.menu_items)⟩) := by
  obtain ⟨h1, h2, h3, h4⟩ := calc_go_spec assets sp off m.menu_items 0 [] hres
  refine ⟨h1, by simpa using h2, ?_⟩
  intro i it dims hit himg _
  simpa using h4 i it dims hit himg

/-- C4 witness: a single image item of width 40 at anchor (20, 20) is stored
at `x = 20 - 20 = 0`. -/
theorem c4_witness :
    (Menu.calculate_item_positions ⟨"main", 0, [⟨"one", "image_item"⟩], []⟩
        sample_assets ⟨20, 20⟩ 10).1.menu_item_positions[0]?
      = some ⟨20 - 40 / 2,
          20 + running_offset sample_assets 10
            (List.take 0 [(⟨"one", "image_item"⟩ : MenuItem)])⟩ :=
  (c4_layout sample_assets ⟨"main", 0, [⟨"one", "image_item"⟩], []⟩ ⟨20, 20⟩ 10
      (by
        intro it hit
        simp only [List.mem_singleton] at hit
        subst hit
        left
        simp [sample_assets])).2.2
    0 ⟨"one", "image_item"⟩ ⟨40, 12⟩ rfl (by simp [sample_assets]) (by decide)

/-- C7 (confirmed): the glyph placement of `TextBox::render` is anchored at
the text box's *bottom* edge: the buffer position written for the glyph cell
in row `r`, column `col` (the loop index `r * char_width + col`) is exactly
`glyph.x + col + (placement_y + r) * buffer_width` with
`placement_y = (text_box_y + text_box_height) - (glyph_baseline_min + glyph_height)`
clamped at zero — i.e. the glyph's pixels are written row-major starting
from the bottom-anchored, zero-clamped placement. -/
theorem c7_bottom_anchored_placement (glyph_x text_box_y text_box_height : Nat)
    (ymin : Int) (char_width char_height buffer_width r col : Nat)
    (hc : col < char_width) :
    glyph_pixel_position
        (glyph_top_left_placement glyph_x text_box_y text_box_height ymin
          char_height buffer_width)
        (r * char_width + col) char_width buffer_width
      = glyph_x + col
        + (spec_placement_y text_box_y text_box_height ymin char_height + r)
          * buffer_width := by
  have hcw : 0 < char_width := by omega
  have hmod : (r * char_width + col) % char_width = col := by
    rw [Nat.mul_comm r char_width, Nat.mul_add_mod]
    exact Nat.mod_eq_of_lt hc
  have hdiv : (r * char_width + col) / char_width = r := by
    rw [Nat.mul_comm r char_width, Nat.mul_add_div hcw, Nat.div_eq_of_lt hc]
    omega
  have hclamp :
      (max (((text_box_y + text_box_height : Nat) : Int)
          - (ymin + (char_height : Int))) 0).toNat
        = spec_placement_y text_box_y text_box_height ymin char_height := by
    unfold spec_placement_y
    rcases le_total (((text_box_y + text_box_height : Nat) : Int)
        - (ymin + (char_height : Int))) 0 with h | h
    · rw [max_eq_right h, Int.toNat_of_nonpos h]
      rfl
    · rw [max_eq_left h]
  unfold glyph_pixel_position glyph_top_left_placement
  rw [hmod, hdiv, hclamp]
  ring

/-- C7 witness: the placement at a concrete glyph (box bottom 30, baseline
minimum -2, glyph height 10, row 1, column 2). -/
theorem c7_witness :
    glyph_pixel_position
        (glyph_top_left_placement 5 10 20 (-2) 10 100) (1 * 4 + 2) 4 100
      = 5 + 2 + (spec_placement_y 10 20 (-2) 10 + 1) * 100 :=
  c7_bottom_anchored_placement 5 10 20 (-2) 4 10 100 1 2 (by decide)

/-- C9 (confirmed): `draw_line` with any endpoint coordinate that is zero or
negative fails with `InvalidGeometry` and performs no writes — the returned
buffer is the input buffer unchanged. -/
theorem c9_nonpositive_coordinate_guard (buf : List Nat)
    (point_a point_b : Int × Int) (color : Rgba) (buffer_width : Nat)
    (h : point_a.1 ≤ 0 ∨ point_a.2 ≤ 0 ∨ point_b.1 ≤ 0 ∨ point_b.2 ≤ 0) :
    draw_line buf point_a point_b color buffer_width
      = (buf, some .invalidGeometry) := by
  simp only [draw_line, if_pos h]

/-- C9 witness: a line from (0, 1) — zero x coordinate — is rejected with
the buffer untouched. -/
theorem c9_witness :
    draw_line [0, 0, 0, 0] (0, 1) (1, 1) ⟨1, 1, 1, 255⟩ 2
      = ([0, 0, 0, 0], some .invalidGeometry) :=
  c9_nonpositive_coordinate_guard [0, 0, 0, 0] (0, 1) (1, 1) ⟨1, 1, 1, 255⟩ 2
    (Or.inl (by decide))

end Rustris
